import Mathlib

/-!
Verification of the release-automation script `update.py`.

The Python script is shallowly embedded: strings are `List Char`, the process
state (pending user inputs, queued results of external commands, the content of
`library.properties`, and the log of issued external commands) is an explicit
record, and `sys.exit` is an explicit outcome.  Every definition below is a
direct translation of the corresponding Python function.
-/

set_option autoImplicit false

namespace Update

/-! ### Python string primitives -/

/-- Python `str.strip()`: remove leading and trailing whitespace. -/
def pyStrip (cs : List Char) : List Char :=
  ((cs.dropWhile Char.isWhitespace).reverse.dropWhile Char.isWhitespace).reverse

/-- Python `str.lower()` (ASCII). -/
def pyLower (cs : List Char) : List Char :=
  cs.map Char.toLower

/-- Python `str.startswith('y')`. -/
def startsWithY (cs : List Char) : Bool :=
  match cs with
  | [] => false
  | c :: _ => c = 'y'

/-- `needle` is a leading piece of `hay` (used for substring search and for
the literal part of the `version=` regular expression). -/
def listStartsWith : List Char → List Char → Bool
  | [], _ => true
  | _ :: _, [] => false
  | a :: as, b :: bs => a = b && listStartsWith as bs

/-- Python `needle in hay` on strings: substring test. -/
def containsSub (needle : List Char) : List Char → Bool
  | [] => needle.isEmpty
  | c :: t => listStartsWith needle (c :: t) || containsSub needle t

/-! ### Version strings: `split('.')`, `'.'.join`, `int`, `str` -/

/-- Python `version.split('.')`: cut at every `'.'`, never collapsing; the
empty string splits to `[""]`. -/
def splitDot : List Char → List (List Char)
  | [] => [[]]
  | c :: cs =>
    if c = '.' then [] :: splitDot cs
    else
      match splitDot cs with
      | r :: rs => (c :: r) :: rs
      | [] => [[c]]

/-- Python `'.'.join(parts)`. -/
def joinDot : List (List Char) → List Char
  | [] => []
  | [p] => p
  | p :: ps => p ++ '.' :: joinDot ps

/-- Python `int(s)` on the unsigned decimal strings that occur as version
components: defined exactly when `s` is a nonempty string of digits. -/
def parseNat? (cs : List Char) : Option Nat :=
  if cs.isEmpty then none
  else if cs.all Char.isDigit then
    some (cs.foldl (fun a c => a * 10 + (c.toNat - 48)) 0)
  else none

/-- The decimal digit characters used by Python `str(int)`. -/
def digitChar (d : Nat) : Char :=
  match d with
  | 0 => '0' | 1 => '1' | 2 => '2' | 3 => '3' | 4 => '4'
  | 5 => '5' | 6 => '6' | 7 => '7' | 8 => '8' | _ => '9'

/-- Digits of `n`, most significant first, prepended to `acc`; the fuel
argument bounds the recursion and is always sufficient at `n + 1`. -/
def natCharsAux : Nat → Nat → List Char → List Char
  | 0, _, acc => acc
  | fuel + 1, n, acc =>
    if n < 10 then digitChar n :: acc
    else natCharsAux fuel (n / 10) (digitChar (n % 10) :: acc)

/-- Python `str(n)` for a natural number `n`. -/
def natChars (n : Nat) : List Char :=
  natCharsAux (n + 1) n []

/-- The `parts` list of `bump_version` after the `extend` step: the result of
`version.split('.')`, padded on the right with `"0"` up to length 3. -/
def paddedParts (version : List Char) : List (List Char) :=
  let parts := splitDot version
  if parts.length < 3 then parts ++ List.replicate (3 - parts.length) ['0']
  else parts

/-- `bump_version(version, bump_type)` from `update.py`.  Only the component
that is incremented is passed through `int`; an unparsable component there is
Python's uncaught `ValueError`, modelled as `Except.error ()`. -/
def bump_version (version bump_type : List Char) : Except Unit (List Char) :=
  let parts := paddedParts version
  if bump_type = "major".data then
    match parseNat? (parts.getD 0 []) with
    | none => Except.error ()
    | some n =>
      Except.ok (joinDot (((parts.set 0 (natChars (n + 1))).set 1 ['0']).set 2 ['0']))
  else if bump_type = "minor".data then
    match parseNat? (parts.getD 1 []) with
    | none => Except.error ()
    | some n => Except.ok (joinDot ((parts.set 1 (natChars (n + 1))).set 2 ['0']))
  else
    match parseNat? (parts.getD 2 []) with
    | none => Except.error ()
    | some n => Except.ok (joinDot (parts.set 2 (natChars (n + 1))))

/-- The triple denoted by a version string: split at dots, pad with zeros to
three components, and read each component as an integer.  This is the
spec's "read yields (major, minor, patch)" view, built from the same parsing
pieces as the code. -/
def parseTriple (cs : List Char) : Option (Nat × Nat × Nat) :=
  match paddedParts cs with
  | [x, y, z] =>
    match parseNat? x, parseNat? y, parseNat? z with
    | some a, some b, some c => some (a, b, c)
    | _, _, _ => none
  | _ => none

/-- The component of the padded parts list that `bump_version` increments for
a given bump type: the first for `major`, the second for `minor`, the third
for anything else (the `patch` default). -/
def selectedPart (bump_type sa sb sc : List Char) : List Char :=
  if bump_type = "major".data then sa
  else if bump_type = "minor".data then sb
  else sc

/-! ### The `version=` regular expression

`get_current_version` uses `re.search(r'version=([^\s\n\r]+)', content)` and
`update_version_in_library_properties` uses `re.sub` with the same pattern.
A position of the text matches when the literal `version=` starts there and is
followed by at least one non-whitespace character; the captured token is the
maximal run of non-whitespace characters after the `=`. -/

/-- The literal part of the pattern. -/
def versionKey : List Char := "version=".data

/-- Match of the pattern at the start of `cs`: the captured token and the rest
of the text after the token. -/
def matchVersionAt (cs : List Char) : Option (List Char × List Char) :=
  if listStartsWith versionKey cs then
    if ((cs.drop versionKey.length).takeWhile (fun c => !c.isWhitespace)).isEmpty then none
    else some ((cs.drop versionKey.length).takeWhile (fun c => !c.isWhitespace),
      (cs.drop versionKey.length).dropWhile (fun c => !c.isWhitespace))
  else none

/-- `re.search`: the leftmost match, returned as
(text before the match, captured token, text after the token). -/
def searchVersion : List Char → Option (List Char × List Char × List Char)
  | [] => none
  | c :: cs =>
    match matchVersionAt (c :: cs) with
    | some (tok, rest) => some ([], tok, rest)
    | none => (searchVersion cs).map fun pr => (c :: pr.1, pr.2.1, pr.2.2)

/-- `re.sub` scan: replace every non-overlapping match of the pattern with
`version=` followed by `nv`, scanning left to right and continuing after each
match.  Fuel bounds the recursion; every step consumes at least one character,
so fuel `cs.length` is always sufficient. -/
def subVersionAux (nv : List Char) : Nat → List Char → List Char
  | _, [] => []
  | 0, cs => cs
  | fuel + 1, c :: cs =>
    match matchVersionAt (c :: cs) with
    | some (_, rest) => versionKey ++ nv ++ subVersionAux nv fuel rest
    | none => c :: subVersionAux nv fuel cs

/-- `re.sub(r'version=[^\s\n\r]+', 'version=' + nv, cs)`. -/
def subVersionAll (nv cs : List Char) : List Char :=
  subVersionAux nv cs.length cs

/-! ### Process model

The script's interaction with the outside world: `input()` consumes the next
queued user response, `subprocess.run` consumes the next queued command result
and logs the issued command, `library.properties` is the only file, and
`sys.exit(code)` ends the run with that code.  A completed `main` is process
exit code 0. -/

/-- Result of one external command: exit code and captured output streams. -/
structure CmdResult where
  returncode : Int
  stdout : List Char
  stderr : List Char
deriving DecidableEq, Repr

/-- The mutable world of one run of the script. -/
structure PyState where
  /-- Queued responses to `input()`, consumed front to back. -/
  inputs : List (List Char)
  /-- Queued results of external commands, consumed front to back. -/
  results : List CmdResult
  /-- Content of `library.properties`; `none` when the file is absent. -/
  file : Option (List Char)
  /-- Log of the external commands issued so far, in order. -/
  cmds : List (List Char)
deriving DecidableEq, Repr

/-- Outcome of a piece of the script: a returned value, or process
termination via `sys.exit code`. -/
inductive Res (α : Type) where
  | ret (a : α) (s : PyState)
  | exit (code : Nat) (s : PyState)
deriving DecidableEq, Repr

/-- Sequencing: `sys.exit` aborts everything downstream. -/
def Res.bind {α β : Type} : Res α → (α → PyState → Res β) → Res β
  | .exit c s, _ => .exit c s
  | .ret a s, f => f a s

/-- The process exit code an outcome denotes (a completed run exits 0). -/
def Res.code {α : Type} : Res α → Nat
  | .ret _ _ => 0
  | .exit c _ => c

/-- The final state of an outcome. -/
def Res.state {α : Type} : Res α → PyState
  | .ret _ s => s
  | .exit _ s => s

/-- `input()`: consume the next queued response (empty when exhausted). -/
def readInput (s : PyState) : List Char × PyState :=
  (s.inputs.headD [], { s with inputs := s.inputs.tail })

/-- `run_command(cmd, check)` from `update.py`: run the command, and if
`check` holds and the exit code is non-zero, print the error and
`sys.exit(1)`; otherwise return `result.stdout.strip()`. -/
def run_command (cmd : List Char) (check : Bool) (s : PyState) : Res (List Char) :=
  let r := s.results.headD ⟨0, [], []⟩
  let s' := { s with results := s.results.tail, cmds := s.cmds ++ [cmd] }
  if check && r.returncode != 0 then .exit 1 s'
  else .ret (pyStrip r.stdout) s'

/-- `get_current_version()` from `update.py`: read `library.properties` and
return the captured version token; `sys.exit(1)` when the file is absent or
no `version=` assignment matches. -/
def get_current_version (s : PyState) : Res (List Char) :=
  match s.file with
  | none => .exit 1 s
  | some content =>
    match searchVersion content with
    | some pr => .ret pr.2.1 s
    | none => .exit 1 s

/-- `update_version_in_library_properties(new_version)` from `update.py`:
substitute the version token, write the file only when the substitution
changed the content, and return whether it changed; `False` when the file is
absent (the `FileNotFoundError` handler). -/
def update_version_in_library_properties (newVersion : List Char) (s : PyState) :
    Bool × PyState :=
  match s.file with
  | none => (false, s)
  | some content =>
    let newContent := subVersionAll newVersion content
    if newContent = content then (false, s)
    else (true, { s with file := some newContent })

/-- `get_yes_no(prompt, default)` from `update.py`: strip and lowercase the
response; the empty result selects the default, anything else is yes exactly
when it starts with `y`. -/
def get_yes_no (default : Bool) (s : PyState) : Bool × PyState :=
  let (resp, s') := readInput s
  let r := pyLower (pyStrip resp)
  if r.isEmpty then (default, s') else (startsWithY r, s')

/-! External command texts, exactly the strings the script passes to
`run_command`. -/

def cmdGitDir : List Char := "git rev-parse --git-dir".data
def cmdRemoteV : List Char := "git remote -v".data
def cmdAddUpstream : List Char :=
  "git remote add upstream https://github.com/acidtech/basicmicro_arduino".data
def cmdAddOrigin : List Char :=
  "git remote add origin https://github.com/basicmicrosupport/basicmicro_arduino".data
def cmdStatusPorcelain : List Char := "git status --porcelain".data
def cmdStatusShort : List Char := "git status --short".data
def cmdAdd : List Char := "git add .".data
def cmdCommit (msg : List Char) : List Char :=
  "git commit -m \"".data ++ msg ++ "\"".data
def cmdPushUpstream : List Char := "git push upstream main".data
def cmdPushOrigin : List Char := "git push origin main".data

/-- The `gh release create` command line built by `create_github_release`. -/
def cmdRelease (version notes : List Char) : List Char :=
  let base := "gh release create v".data ++ version ++ " --title \"Release ".data ++
    version ++ "\" --repo basicmicrosupport/basicmicro_arduino".data
  if notes.isEmpty then base ++ " --generate-notes".data
  else base ++ " --notes \"".data ++ notes ++ "\"".data

/-- `commit_and_push_changes(commit_message)` from `update.py`.  The
surrounding `try/except Exception` cannot intercept the `SystemExit` raised
by `run_command`, so a failing checked command terminates the process here. -/
def commit_and_push_changes (msg : List Char) (s : PyState) : Res Bool :=
  Res.bind (run_command cmdStatusPorcelain false s) fun status s =>
    if status.isEmpty then .ret false s
    else
      Res.bind (run_command cmdStatusShort false s) fun _ s =>
      Res.bind (run_command cmdAdd true s) fun _ s =>
      Res.bind (run_command (cmdCommit msg) true s) fun _ s =>
      Res.bind (run_command cmdPushUpstream true s) fun _ s =>
      Res.bind (run_command cmdPushOrigin true s) fun _ s =>
      .ret true s

/-- `create_github_release(version, release_notes)` from `update.py`.  The
`run_command` call uses the default `check=True`; its `SystemExit` passes
through the `except Exception` handler, so a failing `gh` command terminates
the process with code 1. -/
def create_github_release (version notes : List Char) (s : PyState) : Res Bool :=
  Res.bind (run_command (cmdRelease version notes) true s) fun _ s =>
    .ret true s

/-- `setup_remotes()` from `update.py`: list remotes (unchecked), then add
each of `upstream` and `origin` whose name does not occur in the listing.
The `git remote add` calls are checked, and their `SystemExit` passes through
the `except Exception` handler. -/
def setup_remotes (s : PyState) : Res Bool :=
  Res.bind (run_command cmdRemoteV false s) fun remotes s =>
    let hasUpstream := containsSub "upstream".data remotes
    let hasOrigin := containsSub "origin".data remotes
    let step1 : Res Unit :=
      if hasUpstream then .ret () s
      else Res.bind (run_command cmdAddUpstream true s) fun _ s => .ret () s
    Res.bind step1 fun _ s =>
      if hasOrigin then .ret true s
      else Res.bind (run_command cmdAddOrigin true s) fun _ s => .ret true s

/-- `check_arduino_library_format()` from `update.py`: the only required file
is `library.properties`; when it is missing the user is asked whether to
continue (default no). -/
def check_arduino_library_format (s : PyState) : Res Bool :=
  if s.file.isSome then .ret true s
  else
    let (ans, s') := get_yes_no false s
    if ans then .ret true s' else .ret false s'

/-- Default commit message `f"Bump version to {new_version}"`. -/
def defaultCommitMsg (newVersion : List Char) : List Char :=
  "Bump version to ".data ++ newVersion

/-! `main()` from `update.py`, cut at its sequential steps so that each
orchestration decision is addressable.  Every step function is the faithful
continuation of `main` from that point on. -/

/-- Tail of `main`: prompt for release notes and create the GitHub release;
the release result is not inspected, and reaching the end of `main` is
process exit 0. -/
def mainReleaseStep (newVersion : List Char) (s : PyState) : Res Unit :=
  let (rn, s) := readInput s
  Res.bind (create_github_release newVersion (pyStrip rn) s) fun _ s =>
    .ret () s

/-- Tail of `main`: prompt for the commit message, commit and push, and exit
1 when `commit_and_push_changes` returns `False`. -/
def mainCommitStep (newVersion : List Char) (s : PyState) : Res Unit :=
  let (cm, s) := readInput s
  let msg := if (pyStrip cm).isEmpty then defaultCommitMsg newVersion else pyStrip cm
  Res.bind (commit_and_push_changes msg s) fun ok s =>
    if ok then mainReleaseStep newVersion s else .exit 1 s

/-- Tail of `main`: write the new version, exiting 1 when the write reports
that no replacement occurred. -/
def mainWriteStep (newVersion : List Char) (s : PyState) : Res Unit :=
  match update_version_in_library_properties newVersion s with
  | (true, s) => mainCommitStep newVersion s
  | (false, s) => .exit 1 s

/-- Tail of `main`: the `Continue with this version?` confirmation
(default yes); declining is `sys.exit(0)`. -/
def mainConfirmStep (newVersion : List Char) (s : PyState) : Res Unit :=
  let (ans, s) := get_yes_no true s
  if ans then mainWriteStep newVersion s else .exit 0 s

/-- Tail of `main`: prompt for the bump type (default `patch`), compute the
new version (an uncaught `ValueError` from `int` aborts the interpreter with
a non-zero code, modelled as exit 1), then continue. -/
def mainComputeStep (currentVersion : List Char) (s : PyState) : Res Unit :=
  let (bt, s) := readInput s
  let bumpType := if (pyStrip bt).isEmpty then "patch".data else pyStrip bt
  match bump_version currentVersion bumpType with
  | .error _ => .exit 1 s
  | .ok newVersion => mainConfirmStep newVersion s

/-- `main()` from `update.py`.  The bare `except:` around the first
`git rev-parse` also catches `SystemExit` and re-exits with code 1, which is
the same outcome `run_command` produces. -/
def main (s : PyState) : Res Unit :=
  match run_command cmdGitDir true s with
  | .exit _ s => .exit 1 s
  | .ret _ s =>
    Res.bind (check_arduino_library_format s) fun formatOk s =>
      if !formatOk then .exit 1 s
      else
        Res.bind (setup_remotes s) fun _ s =>
          Res.bind (get_current_version s) fun currentVersion s =>
            mainComputeStep currentVersion s

/-! ### Lemmas: decimal rendering and parsing -/

theorem digitChar_isDigit (d : Nat) : (digitChar d).isDigit := by
  rcases d with _ | _ | _ | _ | _ | _ | _ | _ | _ | d <;> rfl

theorem digitChar_toNat (d : Nat) (h : d < 10) : (digitChar d).toNat = 48 + d := by
  rcases d with _ | _ | _ | _ | _ | _ | _ | _ | _ | d
  · rfl
  · rfl
  · rfl
  · rfl
  · rfl
  · rfl
  · rfl
  · rfl
  · rfl
  · have : d = 0 := by omega
    subst this; rfl

theorem natCharsAux_append (fuel : Nat) :
    ∀ (n : Nat) (acc : List Char), natCharsAux fuel n acc = natCharsAux fuel n [] ++ acc := by
  induction fuel with
  | zero => intro n acc; simp [natCharsAux]
  | succ fuel ih =>
    intro n acc
    by_cases h : n < 10
    · simp [natCharsAux, h]
    · rw [natCharsAux, natCharsAux, if_neg h, if_neg h, ih (n / 10) (digitChar (n % 10) :: acc),
        ih (n / 10) [digitChar (n % 10)]]
      simp

theorem natCharsAux_digits (fuel : Nat) :
    ∀ (n : Nat), n < fuel → ∀ c ∈ natCharsAux fuel n [], c.isDigit := by
  induction fuel with
  | zero => intro n h; omega
  | succ fuel ih =>
    intro n hn c hc
    by_cases h : n < 10
    · rw [natCharsAux, if_pos h, List.mem_singleton] at hc
      subst hc; exact digitChar_isDigit n
    · rw [natCharsAux, if_neg h, natCharsAux_append] at hc
      rcases List.mem_append.mp hc with hc | hc
      · exact ih (n / 10) (by omega) c hc
      · rw [List.mem_singleton] at hc
        subst hc; exact digitChar_isDigit _

theorem natCharsAux_ne_nil (fuel n : Nat) (h : n < fuel) : natCharsAux fuel n [] ≠ [] := by
  cases fuel with
  | zero => omega
  | succ fuel =>
    by_cases h10 : n < 10
    · rw [natCharsAux, if_pos h10]; simp
    · rw [natCharsAux, if_neg h10, natCharsAux_append]
      intro hnil
      have hlen := congrArg List.length hnil
      simp at hlen

theorem natCharsAux_foldl (fuel : Nat) :
    ∀ (n : Nat), n < fuel → ∀ (i : Nat),
      List.foldl (fun a c => a * 10 + (c.toNat - 48)) i (natCharsAux fuel n []) =
        i * 10 ^ (natCharsAux fuel n []).length + n := by
  induction fuel with
  | zero => intro n h; omega
  | succ fuel ih =>
    intro n hn i
    by_cases h : n < 10
    · rw [natCharsAux, if_pos h]
      simp [digitChar_toNat n h]
    · rw [natCharsAux, if_neg h, natCharsAux_append]
      rw [List.foldl_append, List.length_append]
      rw [ih (n / 10) (by omega) i]
      simp only [List.foldl_cons, List.foldl_nil, List.length_cons, List.length_nil]
      rw [digitChar_toNat (n % 10) (by omega)]
      have hpow : (10 : Nat) ^ ((natCharsAux fuel (n / 10) []).length + (0 + 1)) =
          10 ^ (natCharsAux fuel (n / 10) []).length * 10 := by
        rw [Nat.zero_add, pow_succ]
      rw [hpow]
      ring_nf
      omega

theorem parseNat?_natChars (n : Nat) : parseNat? (natChars n) = some n := by
  unfold parseNat? natChars
  rw [if_neg (by simpa using natCharsAux_ne_nil (n + 1) n (by omega))]
  rw [if_pos (List.all_eq_true.mpr fun c hc => by
    simpa using natCharsAux_digits (n + 1) n (by omega) c hc)]
  rw [natCharsAux_foldl (n + 1) n (by omega) 0]
  simp

theorem parseNat?_digits {cs : List Char} {n : Nat} (h : parseNat? cs = some n) :
    cs ≠ [] ∧ ∀ c ∈ cs, c.isDigit := by
  unfold parseNat? at h
  by_cases h1 : cs.isEmpty
  · rw [if_pos h1] at h; cases h
  · rw [if_neg h1] at h
    by_cases h2 : cs.all Char.isDigit
    · exact ⟨by simpa using h1, fun c hc => List.all_eq_true.mp h2 c hc⟩
    · rw [if_neg h2] at h; cases h

theorem isDigit_ne_dot {c : Char} (h : c.isDigit) : c ≠ '.' := by
  intro hc
  subst hc
  exact absurd h (by decide)

theorem natChars_no_dot (n : Nat) : '.' ∉ natChars n := fun hmem =>
  isDigit_ne_dot (natCharsAux_digits (n + 1) n (by omega) '.' hmem) rfl

/-! ### Lemmas: `split('.')` and `'.'.join` -/

theorem splitDot_ne_nil (cs : List Char) : splitDot cs ≠ [] := by
  induction cs with
  | nil => simp [splitDot]
  | cons c cs ih =>
    rw [splitDot]
    split
    · simp
    · match h : splitDot cs with
      | r :: rs => simp
      | [] => exact absurd h ih

theorem splitDot_no_dot {p : List Char} (hp : '.' ∉ p) : splitDot p = [p] := by
  induction p with
  | nil => rfl
  | cons c cs ih =>
    have hc : c ≠ '.' := fun h => hp (h ▸ List.mem_cons_self c cs)
    rw [splitDot, if_neg hc, ih (fun h => hp (List.mem_cons_of_mem c h))]

theorem splitDot_append_dot {p : List Char} (hp : '.' ∉ p) (r : List Char) :
    splitDot (p ++ '.' :: r) = p :: splitDot r := by
  induction p with
  | nil => simp [splitDot]
  | cons c cs ih =>
    have hc : c ≠ '.' := fun h => hp (h ▸ List.mem_cons_self c cs)
    rw [List.cons_append, splitDot, if_neg hc, ih (fun h => hp (List.mem_cons_of_mem c h))]

theorem splitDot_joinDot :
    ∀ (l : List (List Char)), l ≠ [] → (∀ p ∈ l, '.' ∉ p) → splitDot (joinDot l) = l := by
  intro l
  induction l with
  | nil => intro h; exact absurd rfl h
  | cons p ps ih =>
    intro _ hnd
    match ps with
    | [] => exact splitDot_no_dot (hnd p (List.mem_cons_self p []))
    | q :: qs =>
      rw [joinDot, splitDot_append_dot (hnd p (List.mem_cons_self p _))]
      · rw [ih (by simp) (fun x hx => hnd x (List.mem_cons_of_mem p hx))]
      · simp


/-! ### Lemmas: list scanning helpers -/

theorem listStartsWith_iff (n : List Char) :
    ∀ (h : List Char), listStartsWith n h = true ↔ ∃ t, h = n ++ t := by
  induction n with
  | nil => intro h; simp [listStartsWith]
  | cons a as ih =>
    intro h
    cases h with
    | nil => simp [listStartsWith]
    | cons b bs =>
      rw [listStartsWith]
      simp only [Bool.and_eq_true, decide_eq_true_eq, ih bs]
      constructor
      · rintro ⟨rfl, t, rfl⟩; exact ⟨t, rfl⟩
      · rintro ⟨t, ht⟩
        rw [List.cons_append] at ht
        injection ht with h1 h2
        exact ⟨h1.symm, t, h2⟩

theorem listStartsWith_append_left (n : List Char) :
    ∀ (P X : List Char), n.length ≤ P.length →
      listStartsWith n (P ++ X) = listStartsWith n P := by
  induction n with
  | nil => intro P X _; rfl
  | cons a as ih =>
    intro P X hlen
    cases P with
    | nil => simp at hlen
    | cons b bs =>
      rw [List.cons_append, listStartsWith, listStartsWith, ih bs X (by simpa using hlen)]

theorem takeWhile_all {p : Char → Bool} {u : List Char} (hu : ∀ c ∈ u, p c) (w : List Char) :
    (u ++ w).takeWhile p = u ++ w.takeWhile p := by
  induction u with
  | nil => rfl
  | cons a u ih =>
    rw [List.cons_append, List.takeWhile_cons, if_pos (hu a (List.mem_cons_self a u)),
      ih (fun c hc => hu c (List.mem_cons_of_mem a hc)), List.cons_append]

theorem dropWhile_all {p : Char → Bool} {u : List Char} (hu : ∀ c ∈ u, p c) (w : List Char) :
    (u ++ w).dropWhile p = w.dropWhile p := by
  induction u with
  | nil => rfl
  | cons a u ih =>
    rw [List.cons_append, List.dropWhile_cons, if_pos (hu a (List.mem_cons_self a u)),
      ih (fun c hc => hu c (List.mem_cons_of_mem a hc))]

theorem takeWhile_nil_of_head {p : Char → Bool} {l : List Char}
    (h : ∀ c, l.head? = some c → p c = false) : l.takeWhile p = [] := by
  cases l with
  | nil => rfl
  | cons a l => rw [List.takeWhile_cons, if_neg (by simp [h a rfl])]

theorem dropWhile_id_of_head {p : Char → Bool} {l : List Char}
    (h : ∀ c, l.head? = some c → p c = false) : l.dropWhile p = l := by
  cases l with
  | nil => rfl
  | cons a l => rw [List.dropWhile_cons, if_neg (by simp [h a rfl])]

theorem head?_dropWhile {p : Char → Bool} {l : List Char} {c : Char}
    (h : (l.dropWhile p).head? = some c) : p c = false := by
  induction l with
  | nil => cases h
  | cons a l ih =>
    rw [List.dropWhile_cons] at h
    by_cases hp : p a
    · rw [if_pos hp] at h; exact ih h
    · rw [if_neg hp] at h
      injection h with h
      subst h
      simpa using hp

theorem length_dropWhile_le (p : Char → Bool) (l : List Char) :
    (l.dropWhile p).length ≤ l.length := by
  induction l with
  | nil => simp
  | cons a t ih =>
    rw [List.dropWhile_cons]
    split
    · simp only [List.length_cons]; omega
    · simp

/-! ### Lemmas: the `version=` pattern -/

theorem versionKey_length : versionKey.length = 8 := rfl

theorem mva_append (a : List Char)
    (h : a.takeWhile (fun c => !c.isWhitespace) ≠ []) :
    matchVersionAt (versionKey ++ a) =
      some (a.takeWhile (fun c => !c.isWhitespace),
        a.dropWhile (fun c => !c.isWhitespace)) := by
  rw [matchVersionAt]
  rw [if_pos (by rw [listStartsWith_iff]; exact ⟨a, rfl⟩)]
  rw [List.drop_left]
  rw [if_neg (by simpa [List.isEmpty_iff] using h)]

theorem mva_elim {cs tok rest : List Char}
    (h : matchVersionAt cs = some (tok, rest)) :
    ∃ a, cs = versionKey ++ a ∧
      tok = a.takeWhile (fun c => !c.isWhitespace) ∧
      rest = a.dropWhile (fun c => !c.isWhitespace) ∧ tok ≠ [] := by
  rw [matchVersionAt] at h
  by_cases hs : listStartsWith versionKey cs
  · rw [if_pos hs] at h
    obtain ⟨t, rfl⟩ := (listStartsWith_iff versionKey cs).mp hs
    rw [List.drop_left] at h
    by_cases he : ((t.takeWhile fun c => !c.isWhitespace)).isEmpty
    · rw [if_pos he] at h; cases h
    · rw [if_neg he] at h
      rw [Option.some.injEq, Prod.mk.injEq] at h
      obtain ⟨h1, h2⟩ := h
      refine ⟨t, rfl, h1.symm, h2.symm, ?_⟩
      rw [← h1]
      simpa [List.isEmpty_iff] using he
  · rw [if_neg hs] at h; cases h

theorem mva_rest_lt {cs tok rest : List Char}
    (h : matchVersionAt cs = some (tok, rest)) : rest.length < cs.length := by
  obtain ⟨a, rfl, _, hrest, _⟩ := mva_elim h
  subst hrest
  have h1 := length_dropWhile_le (fun c => !c.isWhitespace) a
  rw [List.length_append, versionKey_length]
  omega

theorem mva_congr_append {P X Y : List Char} (h9 : 9 ≤ P.length)
    (hnone : matchVersionAt (P ++ X) = none) : matchVersionAt (P ++ Y) = none := by
  rw [matchVersionAt] at hnone ⊢
  rw [listStartsWith_append_left versionKey P X (by rw [versionKey_length]; omega)] at hnone
  rw [listStartsWith_append_left versionKey P Y (by rw [versionKey_length]; omega)]
  by_cases hs : listStartsWith versionKey P
  · rw [if_pos hs] at hnone ⊢
    rw [List.drop_append_of_le_length (by rw [versionKey_length]; omega)] at hnone ⊢
    obtain ⟨a, u, hu⟩ : ∃ a u, P.drop versionKey.length = a :: u := by
      cases hP : P.drop versionKey.length with
      | nil =>
        have hl := congrArg List.length hP
        simp only [List.length_drop, versionKey_length, List.length_nil] at hl
        omega
      | cons a u => exact ⟨a, u, rfl⟩
    rw [hu] at hnone ⊢
    rw [List.cons_append, List.takeWhile_cons] at hnone ⊢
    by_cases ha : (!a.isWhitespace) = true
    · rw [if_pos ha] at hnone
      simp at hnone
    · rw [if_neg ha] at hnone ⊢
      simp
  · rw [if_neg hs]

/-! ### Lemmas: `re.search` -/

theorem sv_of_match {cs tok rest : List Char}
    (h : matchVersionAt cs = some (tok, rest)) : searchVersion cs = some ([], tok, rest) := by
  cases cs with
  | nil => cases h
  | cons c cs => rw [searchVersion, h]

theorem sv_elim {cs pre tok rest : List Char}
    (h : searchVersion cs = some (pre, tok, rest)) :
    cs = pre ++ versionKey ++ tok ++ rest ∧ tok ≠ [] ∧
      (∀ c ∈ tok, c.isWhitespace = false) ∧
      (∀ c, rest.head? = some c → c.isWhitespace = true) := by
  induction cs generalizing pre tok rest with
  | nil => cases h
  | cons c cs ih =>
    rw [searchVersion] at h
    cases hm : matchVersionAt (c :: cs) with
    | some pr =>
      obtain ⟨tok', rest'⟩ := pr
      rw [hm] at h
      rw [Option.some.injEq, Prod.mk.injEq, Prod.mk.injEq] at h
      obtain ⟨hpre, htk, hrs⟩ := h
      subst hpre htk hrs
      obtain ⟨a, hafter, htok, hrest, hne⟩ := mva_elim hm
      refine ⟨?_, hne, ?_, ?_⟩
      · rw [hafter, htok, hrest, List.nil_append, List.append_assoc, List.takeWhile_append_dropWhile]
      · intro x hx
        rw [htok] at hx
        have := List.mem_takeWhile_imp hx
        simpa using this
      · intro x hx
        rw [hrest] at hx
        have := head?_dropWhile hx
        simpa using this
    | none =>
      rw [hm] at h
      cases hs : searchVersion cs with
      | none => rw [hs] at h; cases h
      | some pr =>
        obtain ⟨p', t', r'⟩ := pr
        rw [hs] at h
        simp only [Option.map_some'] at h
        rw [Option.some.injEq, Prod.mk.injEq, Prod.mk.injEq] at h
        obtain ⟨hpre, htk, hrs⟩ := h
        subst hpre htk hrs
        obtain ⟨hcs, hne, htokw, hrestw⟩ := ih hs
        refine ⟨by rw [hcs]; simp, hne, htokw, hrestw⟩

theorem sv_replace {cs pre tok rest nv : List Char}
    (h : searchVersion cs = some (pre, tok, rest)) (hnv : nv ≠ [])
    (hnw : ∀ c ∈ nv, c.isWhitespace = false) :
    searchVersion (pre ++ versionKey ++ nv ++ rest) = some (pre, nv, rest) := by
  induction cs generalizing pre tok rest with
  | nil => cases h
  | cons c cs ih =>
    rw [searchVersion] at h
    cases hm : matchVersionAt (c :: cs) with
    | some pr =>
      obtain ⟨tok', rest'⟩ := pr
      rw [hm] at h
      rw [Option.some.injEq, Prod.mk.injEq, Prod.mk.injEq] at h
      obtain ⟨hpre, htk, hrs⟩ := h
      subst hpre htk hrs
      obtain ⟨a, hafter, htok, hrest, hne⟩ := mva_elim hm
      have hresthead : ∀ x, rest'.head? = some x → (!x.isWhitespace) = false := by
        intro x hx
        rw [hrest] at hx
        exact head?_dropWhile hx
      have htw : (nv ++ rest').takeWhile (fun c => !c.isWhitespace) = nv := by
        rw [takeWhile_all (fun c hc => by simpa using hnw c hc) rest',
          takeWhile_nil_of_head hresthead, List.append_nil]
      have hdw : (nv ++ rest').dropWhile (fun c => !c.isWhitespace) = rest' := by
        rw [dropWhile_all (fun c hc => by simpa using hnw c hc) rest',
          dropWhile_id_of_head hresthead]
      have hmv := mva_append (nv ++ rest') (by rw [htw]; exact hnv)
      rw [htw, hdw] at hmv
      simpa using sv_of_match hmv
    | none =>
      rw [hm] at h
      cases hs : searchVersion cs with
      | none => rw [hs] at h; cases h
      | some pr =>
        obtain ⟨p', t', r'⟩ := pr
        rw [hs] at h
        simp only [Option.map_some'] at h
        rw [Option.some.injEq, Prod.mk.injEq, Prod.mk.injEq] at h
        obtain ⟨hpre, htk, hrs⟩ := h
        subst hpre htk hrs
        obtain ⟨hcs, hne', htokw, hrestw⟩ := sv_elim hs
        have hnew : matchVersionAt ((c :: p' ++ versionKey) ++ (nv ++ r')) = none := by
          refine mva_congr_append (X := t' ++ r') ?_ ?_
          · simp only [List.length_append, List.length_cons, versionKey_length]
            omega
          · have hsh : (c :: p' ++ versionKey) ++ (t' ++ r') = c :: cs := by
              rw [hcs]; simp
            rw [hsh]
            exact hm
        have hih := ih hs
        rw [show (c :: p') ++ versionKey ++ nv ++ r' =
          c :: (p' ++ versionKey ++ nv ++ r') by simp]
        rw [searchVersion]
        have hnone' : matchVersionAt (c :: (p' ++ versionKey ++ nv ++ r')) = none := by
          rw [show c :: (p' ++ versionKey ++ nv ++ r') =
            (c :: p' ++ versionKey) ++ (nv ++ r') by simp]
          exact hnew
        rw [hnone', hih]
        rfl


/-! ### Lemmas: `re.sub` -/

theorem subAux_fuel (nv : List Char) (fuel : Nat) :
    ∀ (g : Nat) (cs : List Char), cs.length ≤ g → g ≤ fuel →
      subVersionAux nv g cs = subVersionAux nv cs.length cs := by
  induction fuel with
  | zero =>
    intro g cs hlen hg
    have hg0 : g = 0 := by omega
    subst hg0
    have : cs = [] := by
      cases cs with
      | nil => rfl
      | cons c cs => simp at hlen
    subst this
    rfl
  | succ fuel ih =>
    intro g cs hlen hg
    cases g with
    | zero =>
      have : cs = [] := by
        cases cs with
        | nil => rfl
        | cons c cs => simp at hlen
      subst this
      rfl
    | succ g =>
      cases cs with
      | nil => rfl
      | cons c cs =>
        simp only [List.length_cons] at hlen ⊢
        rw [subVersionAux, subVersionAux]
        cases hm : matchVersionAt (c :: cs) with
        | some pr =>
          obtain ⟨tok, rest⟩ := pr
          dsimp only
          have hrest : rest.length < cs.length + 1 := by simpa using mva_rest_lt hm
          rw [ih g rest (by omega) (by omega), ih cs.length rest (by omega) (by omega)]
        | none =>
          dsimp only
          rw [ih g cs (by omega) (by omega)]

theorem sub_of_none {nv cs : List Char} (h : searchVersion cs = none) :
    subVersionAll nv cs = cs := by
  induction cs with
  | nil => rfl
  | cons c cs ih =>
    rw [searchVersion] at h
    cases hm : matchVersionAt (c :: cs) with
    | some pr => rw [hm] at h; cases h
    | none =>
      rw [hm] at h
      have hs : searchVersion cs = none := by
        cases hsv : searchVersion cs with
        | none => rfl
        | some pr => rw [hsv] at h; cases h
      rw [subVersionAll, List.length_cons, subVersionAux, hm]
      dsimp only
      rw [show subVersionAux nv cs.length cs = subVersionAll nv cs from rfl, ih hs]

theorem sub_of_some {nv cs pre tok rest : List Char}
    (h : searchVersion cs = some (pre, tok, rest)) :
    subVersionAll nv cs = pre ++ versionKey ++ nv ++ subVersionAll nv rest := by
  induction cs generalizing pre tok rest with
  | nil => cases h
  | cons c cs ih =>
    rw [searchVersion] at h
    cases hm : matchVersionAt (c :: cs) with
    | some pr =>
      obtain ⟨tok', rest'⟩ := pr
      rw [hm] at h
      rw [Option.some.injEq, Prod.mk.injEq, Prod.mk.injEq] at h
      obtain ⟨hpre, htk, hrs⟩ := h
      subst hpre htk hrs
      rw [subVersionAll, List.length_cons, subVersionAux, hm]
      dsimp only
      have hrest : rest'.length < cs.length + 1 := by simpa using mva_rest_lt hm
      rw [subAux_fuel nv cs.length cs.length rest' (by omega) (by omega)]
      rw [show subVersionAux nv rest'.length rest' = subVersionAll nv rest' from rfl]
      simp
    | none =>
      rw [hm] at h
      cases hs : searchVersion cs with
      | none => rw [hs] at h; cases h
      | some pr =>
        obtain ⟨p', t', r'⟩ := pr
        rw [hs] at h
        simp only [Option.map_some'] at h
        rw [Option.some.injEq, Prod.mk.injEq, Prod.mk.injEq] at h
        obtain ⟨hpre, htk, hrs⟩ := h
        subst hpre htk hrs
        rw [subVersionAll, List.length_cons, subVersionAux, hm]
        dsimp only
        rw [show subVersionAux nv cs.length cs = subVersionAll nv cs from rfl, ih hs]
        simp

/-! ### Auxiliary facts about version parsing -/

theorem parseNat?_no_dot {cs : List Char} {n : Nat} (h : parseNat? cs = some n) :
    '.' ∉ cs :=
  fun hdot => isDigit_ne_dot ((parseNat?_digits h).2 '.' hdot) rfl

theorem parseTriple_joinDot {x y z : List Char} {a b c : Nat}
    (hx : '.' ∉ x) (hy : '.' ∉ y) (hz : '.' ∉ z)
    (ha : parseNat? x = some a) (hb : parseNat? y = some b) (hc : parseNat? z = some c) :
    parseTriple (joinDot [x, y, z]) = some (a, b, c) := by
  have hsplit : splitDot (joinDot [x, y, z]) = [x, y, z] := by
    refine splitDot_joinDot [x, y, z] (by simp) ?_
    intro p hp
    simp only [List.mem_cons, List.not_mem_nil, or_false] at hp
    rcases hp with rfl | rfl | rfl
    · exact hx
    · exact hy
    · exact hz
  rw [parseTriple]
  simp only [paddedParts, hsplit]
  norm_num
  rw [ha, hb, hc]

/-! ### Claim C1 -/

/-- C1: for every version string with one to three integer components
(missing trailing components read as 0), `bump_version` yields exactly the
documented transition — `major` gives (major+1, 0, 0), `minor` gives
(major, minor+1, 0), `patch` gives (major, minor, patch+1) — and in
particular bumping the incomplete version string `9` behaves as if the
version were (9, 0, 0). -/
theorem C1_bump_transitions (v sa sb sc : List Char) (a b c : Nat)
    (hpad : paddedParts v = [sa, sb, sc])
    (ha : parseNat? sa = some a) (hb : parseNat? sb = some b) (hc : parseNat? sc = some c) :
    bump_version v "major".data = Except.ok (joinDot [natChars (a + 1), ['0'], ['0']]) ∧
    bump_version v "minor".data = Except.ok (joinDot [sa, natChars (b + 1), ['0']]) ∧
    bump_version v "patch".data = Except.ok (joinDot [sa, sb, natChars (c + 1)]) ∧
    parseTriple (joinDot [natChars (a + 1), ['0'], ['0']]) = some (a + 1, 0, 0) ∧
    parseTriple (joinDot [sa, natChars (b + 1), ['0']]) = some (a, b + 1, 0) ∧
    parseTriple (joinDot [sa, sb, natChars (c + 1)]) = some (a, b, c + 1) ∧
    bump_version "9".data "major".data = Except.ok "10.0.0".data ∧
    bump_version "9".data "minor".data = Except.ok "9.1.0".data ∧
    bump_version "9".data "patch".data = Except.ok "9.0.1".data := by
  have hdot0 : ('.' : Char) ∉ (['0'] : List Char) := by decide
  refine ⟨?_, ?_, ?_, ?_, ?_, ?_, rfl, rfl, rfl⟩
  · simp [bump_version, hpad, ha]
  · simp [bump_version, hpad, hb]
  · simp [bump_version, hpad, hc]
  · exact parseTriple_joinDot (natChars_no_dot (a + 1)) hdot0 hdot0
      (parseNat?_natChars (a + 1)) rfl rfl
  · exact parseTriple_joinDot (parseNat?_no_dot ha) (natChars_no_dot (b + 1)) hdot0
      ha (parseNat?_natChars (b + 1)) rfl
  · exact parseTriple_joinDot (parseNat?_no_dot ha) (parseNat?_no_dot hb)
      (natChars_no_dot (c + 1)) ha hb (parseNat?_natChars (c + 1))

/-- Witness for C1 at the concrete version `1.2.3`. -/
theorem C1_bump_transitions_witness :
    bump_version "1.2.3".data "major".data = Except.ok "2.0.0".data ∧
    bump_version "1.2.3".data "minor".data = Except.ok "1.3.0".data ∧
    bump_version "1.2.3".data "patch".data = Except.ok "1.2.4".data ∧
    parseTriple "2.0.0".data = some (2, 0, 0) ∧
    parseTriple "1.3.0".data = some (1, 3, 0) ∧
    parseTriple "1.2.4".data = some (1, 2, 4) ∧
    bump_version "9".data "major".data = Except.ok "10.0.0".data ∧
    bump_version "9".data "minor".data = Except.ok "9.1.0".data ∧
    bump_version "9".data "patch".data = Except.ok "9.0.1".data :=
  C1_bump_transitions "1.2.3".data ['1'] ['2'] ['3'] 1 2 3 rfl rfl rfl rfl

/-! ### Claim C5 -/

/-- C5 counterexample: the version string `1.x` has a non-integer component,
yet a `major` bump succeeds and returns `2.0.0` — the components that are
merely zeroed are never parsed, refuting the claim that any non-integer
component fails for every bump kind. -/
theorem C5_counterexample :
    parseNat? ['x'] = none ∧
    paddedParts "1.x".data = [['1'], ['x'], ['0']] ∧
    bump_version "1.x".data "major".data = Except.ok "2.0.0".data :=
  ⟨rfl, rfl, rfl⟩

/-- C5 amended: bumping fails (and, at the orchestrator's compute step, the
run aborts with a non-zero exit) exactly when the single component selected
for increment — the first for `major`, the second for `minor`, the third
otherwise — is not an integer; other components are never validated. -/
theorem C5_amended (v bt sa sb sc : List Char) (ps : List (List Char))
    (hpad : paddedParts v = sa :: sb :: sc :: ps)
    (s : PyState) (i : List Char) (is : List (List Char))
    (hin : s.inputs = i :: is)
    (hbt : (if (pyStrip i).isEmpty then "patch".data else pyStrip i) = bt) :
    (bump_version v bt = Except.error () ↔
      parseNat? (selectedPart bt sa sb sc) = none) ∧
    (parseNat? (selectedPart bt sa sb sc) = none →
      mainComputeStep v s = Res.exit 1 { s with inputs := is }) := by
  have hiff : bump_version v bt = Except.error () ↔
      parseNat? (selectedPart bt sa sb sc) = none := by
    by_cases h1 : bt = "major".data
    · subst h1
      rcases hp : parseNat? sa with _ | n <;>
        simp [bump_version, selectedPart, hpad, hp]
    · by_cases h2 : bt = "minor".data
      · subst h2
        rcases hp : parseNat? sb with _ | n <;>
          simp [bump_version, selectedPart, hpad, hp]
      · rcases hp : parseNat? sc with _ | n <;>
          simp [bump_version, selectedPart, hpad, hp, h1, h2]
  refine ⟨hiff, fun hnone => ?_⟩
  have herr := hiff.mpr hnone
  rw [← hbt] at herr
  simp at herr
  simp [mainComputeStep, readInput, hin, herr]

/-- Witness for C5 at version `1.x` with a `minor` bump request. -/
theorem C5_amended_witness :
    (bump_version "1.x".data "minor".data = Except.error () ↔
      parseNat? (selectedPart "minor".data ['1'] ['x'] ['0']) = none) ∧
    (parseNat? (selectedPart "minor".data ['1'] ['x'] ['0']) = none →
      mainComputeStep "1.x".data
          { inputs := ["minor".data], results := [], file := none, cmds := [] } =
        Res.exit 1 { inputs := [], results := [], file := none, cmds := [] }) :=
  C5_amended "1.x".data "minor".data ['1'] ['x'] ['0'] [] rfl
    { inputs := ["minor".data], results := [], file := none, cmds := [] }
    "minor".data [] rfl rfl

/-! ### Claim C2 -/

/-- C2: for a properties file with exactly one `version=<token>` assignment
(one match of the pattern, none after it) and a new version token (nonempty,
no whitespace), the write replaces exactly the token — all bytes before and
after it are preserved — and a subsequent read returns exactly the written
version. -/
theorem C2_write_preserves_and_reads_back (s : PyState)
    (content pre tok rest nv : List Char)
    (hf : s.file = some content)
    (hs : searchVersion content = some (pre, tok, rest))
    (hone : searchVersion rest = none)
    (hnv : nv ≠ []) (hnw : ∀ c ∈ nv, c.isWhitespace = false) :
    content = pre ++ versionKey ++ tok ++ rest ∧
    (update_version_in_library_properties nv s).2.file =
      some (pre ++ versionKey ++ nv ++ rest) ∧
    get_current_version (update_version_in_library_properties nv s).2 =
      Res.ret nv (update_version_in_library_properties nv s).2 := by
  obtain ⟨hc, _, _, _⟩ := sv_elim hs
  have hsub : subVersionAll nv content = pre ++ versionKey ++ nv ++ rest := by
    rw [sub_of_some hs, sub_of_none hone]
  have hupd : (update_version_in_library_properties nv s).2.file =
      some (pre ++ versionKey ++ nv ++ rest) := by
    rw [update_version_in_library_properties, hf]
    dsimp only
    by_cases he : subVersionAll nv content = content
    · rw [if_pos he, hf, ← he, hsub]
    · rw [if_neg he]
      dsimp only
      rw [hsub]
  have hsr : searchVersion (pre ++ versionKey ++ nv ++ rest) = some (pre, nv, rest) :=
    sv_replace hs hnv hnw
  refine ⟨hc, hupd, ?_⟩
  rw [get_current_version, hupd]
  dsimp only
  rw [hsr]

/-- Witness for C2 on a three-line properties file. -/
theorem C2_witness :
    "name=a\nversion=1.2.3\nend\n".data =
      "name=a\n".data ++ versionKey ++ "1.2.3".data ++ "\nend\n".data ∧
    (update_version_in_library_properties "9.10.11".data
        { inputs := [], results := [],
          file := some "name=a\nversion=1.2.3\nend\n".data, cmds := [] }).2.file =
      some ("name=a\n".data ++ versionKey ++ "9.10.11".data ++ "\nend\n".data) ∧
    get_current_version (update_version_in_library_properties "9.10.11".data
        { inputs := [], results := [],
          file := some "name=a\nversion=1.2.3\nend\n".data, cmds := [] }).2 =
      Res.ret "9.10.11".data (update_version_in_library_properties "9.10.11".data
        { inputs := [], results := [],
          file := some "name=a\nversion=1.2.3\nend\n".data, cmds := [] }).2 :=
  C2_write_preserves_and_reads_back
    { inputs := [], results := [],
      file := some "name=a\nversion=1.2.3\nend\n".data, cmds := [] }
    "name=a\nversion=1.2.3\nend\n".data "name=a\n".data "1.2.3".data "\nend\n".data
    "9.10.11".data rfl (by decide) (by decide) (by decide) (by decide)

/-! ### Claim C6 -/

/-- C6 counterexample: the file contains a `version=` token, yet writing the
identical version returns `false`, because the function reports whether the
substitution changed the content, not whether a token was present. -/
theorem C6_counterexample :
    (searchVersion "version=1.2.3\n".data).isSome = true ∧
    (update_version_in_library_properties "1.2.3".data
      { inputs := [], results := [],
        file := some "version=1.2.3\n".data, cmds := [] }).1 = false := by
  constructor
  · decide
  · rfl

/-- C6 amended: for a file with exactly one `version=<token>` assignment, the
write returns `true` exactly when the new version differs from the present
token (the substitution changes the content); whenever it returns `false`,
the orchestrator's write step exits with code 1. -/
theorem C6_amended (nv : List Char) (s : PyState) (content pre tok rest : List Char)
    (hf : s.file = some content)
    (hs : searchVersion content = some (pre, tok, rest))
    (hone : searchVersion rest = none) :
    ((update_version_in_library_properties nv s).1 = true ↔ nv ≠ tok) ∧
    ((update_version_in_library_properties nv s).1 = false →
      mainWriteStep nv s = Res.exit 1 (update_version_in_library_properties nv s).2) := by
  obtain ⟨hc, _, _, _⟩ := sv_elim hs
  have hsub : subVersionAll nv content = pre ++ versionKey ++ nv ++ rest := by
    rw [sub_of_some hs, sub_of_none hone]
  have hchange : subVersionAll nv content = content ↔ nv = tok := by
    rw [hsub, hc]
    constructor
    · intro he
      exact List.append_cancel_left (List.append_cancel_right he)
    · intro he
      rw [he]
  constructor
  · rw [update_version_in_library_properties, hf]
    dsimp only
    by_cases he : subVersionAll nv content = content
    · rw [if_pos he]
      simpa using hchange.mp he
    · rw [if_neg he]
      simpa using fun hq => he (hchange.mpr hq)
  · intro h0
    rw [mainWriteStep]
    rcases hu : update_version_in_library_properties nv s with ⟨b, s2⟩
    rw [hu] at h0
    simp only at h0
    subst h0
    rfl

/-- Witness for C6 on a one-line properties file. -/
theorem C6_amended_witness :
    ((update_version_in_library_properties "1.2.3".data
        { inputs := [], results := [],
          file := some "version=1.2.3\n".data, cmds := [] }).1 = true ↔
      "1.2.3".data ≠ "1.2.3".data) ∧
    ((update_version_in_library_properties "1.2.3".data
        { inputs := [], results := [],
          file := some "version=1.2.3\n".data, cmds := [] }).1 = false →
      mainWriteStep "1.2.3".data
          { inputs := [], results := [],
            file := some "version=1.2.3\n".data, cmds := [] } =
        Res.exit 1 (update_version_in_library_properties "1.2.3".data
          { inputs := [], results := [],
            file := some "version=1.2.3\n".data, cmds := [] }).2) :=
  C6_amended "1.2.3".data
    { inputs := [], results := [], file := some "version=1.2.3\n".data, cmds := [] }
    "version=1.2.3\n".data [] "1.2.3".data ['\n'] rfl (by decide) (by decide)

/-! ### Claim C9 -/

/-- C9: when `git status --porcelain` reports nothing (its stripped output is
empty), `commit_and_push_changes` returns `false` immediately: the final
state shows that the status command is the only command issued — no add,
commit, or push — and the file is untouched. -/
theorem C9_no_pending_changes (msg : List Char) (s : PyState) (r : CmdResult)
    (qs : List CmdResult)
    (hres : s.results = r :: qs)
    (hempty : pyStrip r.stdout = []) :
    commit_and_push_changes msg s =
      Res.ret false { s with results := qs, cmds := s.cmds ++ [cmdStatusPorcelain] } := by
  simp [commit_and_push_changes, run_command, hres, hempty, Res.bind]

/-- Witness for C9: a clean working tree. -/
theorem C9_witness :
    commit_and_push_changes "m".data
        { inputs := [], results := [⟨0, [], []⟩], file := none, cmds := [] } =
      Res.ret false { inputs := [], results := [], file := none,
                      cmds := [cmdStatusPorcelain] } :=
  C9_no_pending_changes "m".data
    { inputs := [], results := [⟨0, [], []⟩], file := none, cmds := [] }
    ⟨0, [], []⟩ [] rfl rfl

/-! ### Claim C4 -/

/-- C4: `commit_and_push_changes` pushes upstream first and origin second.
With pending changes and successful add/commit, a failing upstream push makes
the process exit 1 with the upstream push as the last command ever issued —
the origin push is never reached.  When every command succeeds, the command
log shows the fixed order: status, status, add, commit, push upstream, push
origin. -/
theorem C4_upstream_push_fails_origin_never_pushed
    (msg m2 : List Char) (s t : PyState)
    (r0 r1 r2 r3 r4 : CmdResult) (rs : List CmdResult)
    (q0 q1 q2 q3 q4 q5 : CmdResult) (qs : List CmdResult)
    (hres : s.results = [r0, r1, r2, r3, r4] ++ rs)
    (h0 : pyStrip r0.stdout ≠ [])
    (h2 : r2.returncode = 0) (h3 : r3.returncode = 0) (h4 : r4.returncode ≠ 0)
    (ht : t.results = [q0, q1, q2, q3, q4, q5] ++ qs)
    (k0 : pyStrip q0.stdout ≠ [])
    (k2 : q2.returncode = 0) (k3 : q3.returncode = 0) (k4 : q4.returncode = 0)
    (k5 : q5.returncode = 0) :
    commit_and_push_changes msg s =
      Res.exit 1 { s with
                   results := rs,
                   cmds := s.cmds ++ [cmdStatusPorcelain, cmdStatusShort, cmdAdd,
                     cmdCommit msg, cmdPushUpstream] } ∧
    commit_and_push_changes m2 t =
      Res.ret true { t with
                     results := qs,
                     cmds := t.cmds ++ [cmdStatusPorcelain, cmdStatusShort, cmdAdd,
                       cmdCommit m2, cmdPushUpstream, cmdPushOrigin] } := by
  constructor
  · simp [commit_and_push_changes, run_command, hres, Res.bind, h0, h2, h3, h4]
  · simp [commit_and_push_changes, run_command, ht, Res.bind, k0, k2, k3, k4, k5]

/-- Witness for C4 with concrete command results. -/
theorem C4_witness :
    commit_and_push_changes "m".data
        { inputs := [], results := [⟨0, "M f".data, []⟩, ⟨0, "M f".data, []⟩,
          ⟨0, [], []⟩, ⟨0, [], []⟩, ⟨1, [], "denied".data⟩], file := none, cmds := [] } =
      Res.exit 1 { inputs := [], results := [], file := none,
                   cmds := [cmdStatusPorcelain, cmdStatusShort, cmdAdd,
                     cmdCommit "m".data, cmdPushUpstream] } ∧
    commit_and_push_changes "m".data
        { inputs := [], results := [⟨0, "M f".data, []⟩, ⟨0, "M f".data, []⟩,
          ⟨0, [], []⟩, ⟨0, [], []⟩, ⟨0, [], []⟩, ⟨0, [], []⟩], file := none, cmds := [] } =
      Res.ret true { inputs := [], results := [], file := none,
                     cmds := [cmdStatusPorcelain, cmdStatusShort, cmdAdd,
                       cmdCommit "m".data, cmdPushUpstream, cmdPushOrigin] } :=
  C4_upstream_push_fails_origin_never_pushed "m".data "m".data
    { inputs := [], results := [⟨0, "M f".data, []⟩, ⟨0, "M f".data, []⟩,
      ⟨0, [], []⟩, ⟨0, [], []⟩, ⟨1, [], "denied".data⟩], file := none, cmds := [] }
    { inputs := [], results := [⟨0, "M f".data, []⟩, ⟨0, "M f".data, []⟩,
      ⟨0, [], []⟩, ⟨0, [], []⟩, ⟨0, [], []⟩, ⟨0, [], []⟩], file := none, cmds := [] }
    ⟨0, "M f".data, []⟩ ⟨0, "M f".data, []⟩ ⟨0, [], []⟩ ⟨0, [], []⟩
    ⟨1, [], "denied".data⟩ []
    ⟨0, "M f".data, []⟩ ⟨0, "M f".data, []⟩ ⟨0, [], []⟩ ⟨0, [], []⟩
    ⟨0, [], []⟩ ⟨0, [], []⟩ []
    rfl (by decide) rfl rfl (by decide) rfl (by decide) rfl rfl rfl rfl

/-! ### Claim C10 -/

/-- C10 counterexample: the response `" "` is non-empty and its stripped,
lowercased form does not start with `y`, yet with default yes the prompt
answers yes — stripping happens before the emptiness test, so a
whitespace-only response selects the default rather than a decline. -/
theorem C10_counterexample :
    ([' '] : List Char) ≠ [] ∧
    (pyLower (pyStrip [' '])).head? ≠ some 'y' ∧
    (get_yes_no true { inputs := [[' ']], results := [], file := none, cmds := [] }).1 =
      true := by
  refine ⟨by decide, by decide, rfl⟩

/-- C10 amended: a response that is empty after stripping yields the prompt's
default; a response whose stripped, lowercased form starts with `y` yields
yes; and a response with nonempty stripped form not starting with `y` yields
no. -/
theorem C10_amended (d : Bool) (resp : List Char) (s : PyState) (is : List (List Char))
    (hin : s.inputs = resp :: is) :
    (pyStrip resp = [] → (get_yes_no d s).1 = d) ∧
    ((pyLower (pyStrip resp)).head? = some 'y' → (get_yes_no d s).1 = true) ∧
    (pyStrip resp ≠ [] → (pyLower (pyStrip resp)).head? ≠ some 'y' →
      (get_yes_no d s).1 = false) := by
  refine ⟨?_, ?_, ?_⟩
  · intro h
    simp [get_yes_no, readInput, hin, h, pyLower]
  · intro h
    rcases hl : pyLower (pyStrip resp) with _ | ⟨c, cs⟩
    · rw [hl] at h; cases h
    · rw [hl] at h
      injection h with h
      subst h
      simp [get_yes_no, readInput, hin, hl, startsWithY]
  · intro h1 h2
    rcases hl : pyLower (pyStrip resp) with _ | ⟨c, cs⟩
    · exact absurd (List.map_eq_nil_iff.mp hl) h1
    · have hc : c ≠ 'y' := fun hcc => h2 (by rw [hl, hcc]; rfl)
      simp [get_yes_no, readInput, hin, hl, startsWithY, hc]

/-- Witness for C10 at the declining response `no` with default yes. -/
theorem C10_amended_witness :
    (pyStrip "no".data = [] →
      (get_yes_no true { inputs := ["no".data], results := [], file := none,
                         cmds := [] }).1 = true) ∧
    ((pyLower (pyStrip "no".data)).head? = some 'y' →
      (get_yes_no true { inputs := ["no".data], results := [], file := none,
                         cmds := [] }).1 = true) ∧
    (pyStrip "no".data ≠ [] → (pyLower (pyStrip "no".data)).head? ≠ some 'y' →
      (get_yes_no true { inputs := ["no".data], results := [], file := none,
                         cmds := [] }).1 = false) :=
  C10_amended true "no".data
    { inputs := ["no".data], results := [], file := none, cmds := [] } [] rfl

/-! ### Claim C8 -/

/-- C8 counterexample: declining the `Continue anyway?` prompt (shown when
`library.properties` is missing) terminates the process with exit code 1,
not 0 — so not every confirmation-prompt decline is a clean exit. -/
theorem C8_counterexample :
    main { inputs := ["n".data], results := [⟨0, [], []⟩], file := none, cmds := [] } =
      Res.exit 1 { inputs := [], results := [], file := none, cmds := [cmdGitDir] } := by
  rfl

/-- C8 amended: declining the final `Continue with this version?` confirmation
terminates the process with exit code 0 and leaves the properties file
unmutated (no command beyond the repository check and the remote listing is
ever issued); by contrast, declining the format-issue prompt exits with
code 1. -/
theorem C8_decline_final_confirmation (s : PyState) (r0 r1 : CmdResult)
    (qs : List CmdResult) (content pre tok post : List Char)
    (i0 i1 : List Char) (is : List (List Char)) (nv : List Char)
    (hres : s.results = [r0, r1] ++ qs) (h0 : r0.returncode = 0)
    (hup : containsSub "upstream".data (pyStrip r1.stdout) = true)
    (hor : containsSub "origin".data (pyStrip r1.stdout) = true)
    (hf : s.file = some content)
    (hsv : searchVersion content = some (pre, tok, post))
    (hin : s.inputs = [i0, i1] ++ is)
    (hbump : bump_version tok
      (if (pyStrip i0).isEmpty then "patch".data else pyStrip i0) = Except.ok nv)
    (hd1 : pyLower (pyStrip i1) ≠ [])
    (hd2 : startsWithY (pyLower (pyStrip i1)) = false) :
    main s = Res.exit 0 { s with
                          inputs := is,
                          results := qs,
                          cmds := s.cmds ++ [cmdGitDir, cmdRemoteV] } ∧
    (main s).state.file = s.file := by
  simp at hbump
  have hmain : main s = Res.exit 0 { s with
      inputs := is,
      results := qs,
      cmds := s.cmds ++ [cmdGitDir, cmdRemoteV] } := by
    simp [main, run_command, check_arduino_library_format, setup_remotes,
      get_current_version, mainComputeStep, mainConfirmStep, get_yes_no, readInput,
      Res.bind, hres, h0, hup, hor, hf, hsv, hin, hbump, hd1, hd2]
  exact ⟨hmain, by rw [hmain]; rfl⟩

/-- Witness for C8: a concrete run declined at the final confirmation. -/
theorem C8_decline_final_confirmation_witness :
    main { inputs := [[], "no".data], results := [⟨0, [], []⟩,
             ⟨0, "upstream u\norigin o".data, []⟩],
           file := some "version=1.2.3\n".data, cmds := [] } =
      Res.exit 0 { inputs := [], results := [],
                   file := some "version=1.2.3\n".data,
                   cmds := [cmdGitDir, cmdRemoteV] } ∧
    (main { inputs := [[], "no".data], results := [⟨0, [], []⟩,
              ⟨0, "upstream u\norigin o".data, []⟩],
            file := some "version=1.2.3\n".data, cmds := [] }).state.file =
      some "version=1.2.3\n".data :=
  C8_decline_final_confirmation
    { inputs := [[], "no".data], results := [⟨0, [], []⟩,
        ⟨0, "upstream u\norigin o".data, []⟩],
      file := some "version=1.2.3\n".data, cmds := [] }
    ⟨0, [], []⟩ ⟨0, "upstream u\norigin o".data, []⟩ []
    "version=1.2.3\n".data [] "1.2.3".data ['\n']
    [] "no".data [] "1.2.4".data
    rfl rfl (by decide) (by decide) rfl (by decide) rfl rfl (by decide) (by decide)

/-! ### Claim C3 -/

/-- C3 (code bug): a run that reaches the release-publication step exits 0
only when the external `gh release create` command succeeds.  When that
command fails, `run_command` raises `SystemExit(1)`, which the
`except Exception` handler in `create_github_release` cannot intercept, so
the process exits 1 — contradicting the claim that release-creation failure
never changes the exit code.  In both runs the release command is the last
command issued. -/
theorem C3_release_failure_changes_exit_code :
    (main { inputs := [[], [], [], []],
            results := [⟨0, [], []⟩, ⟨0, "upstream u\norigin o".data, []⟩,
              ⟨0, "M library.properties".data, []⟩,
              ⟨0, "M library.properties".data, []⟩,
              ⟨0, [], []⟩, ⟨0, [], []⟩, ⟨0, [], []⟩, ⟨0, [], []⟩,
              ⟨1, [], "release failed".data⟩],
            file := some "version=1.2.3\n".data, cmds := [] }).code = 1 ∧
    (main { inputs := [[], [], [], []],
            results := [⟨0, [], []⟩, ⟨0, "upstream u\norigin o".data, []⟩,
              ⟨0, "M library.properties".data, []⟩,
              ⟨0, "M library.properties".data, []⟩,
              ⟨0, [], []⟩, ⟨0, [], []⟩, ⟨0, [], []⟩, ⟨0, [], []⟩,
              ⟨0, [], []⟩],
            file := some "version=1.2.3\n".data, cmds := [] }).code = 0 ∧
    (main { inputs := [[], [], [], []],
            results := [⟨0, [], []⟩, ⟨0, "upstream u\norigin o".data, []⟩,
              ⟨0, "M library.properties".data, []⟩,
              ⟨0, "M library.properties".data, []⟩,
              ⟨0, [], []⟩, ⟨0, [], []⟩, ⟨0, [], []⟩, ⟨0, [], []⟩,
              ⟨1, [], "release failed".data⟩],
            file := some "version=1.2.3\n".data, cmds := [] }).state.cmds.getLast? =
      some (cmdRelease "1.2.4".data []) := by
  refine ⟨by decide, by decide, by decide⟩

/-! ### Claim C7 -/

/-- C7 (code bug): when `git remote -v` lists no `upstream` remote and the
subsequent `git remote add upstream …` command fails, the run aborts with
exit code 1 instead of continuing: `run_command` raises `SystemExit(1)`,
which the `except Exception` handler in `setup_remotes` cannot intercept.
The command log stops at the failed add — no later step is ever reached. -/
theorem C7_remote_add_failure_aborts_run :
    (main { inputs := [], results := [⟨0, [], []⟩, ⟨0, [], []⟩,
              ⟨2, [], "denied".data⟩],
            file := some "version=1.2.3\n".data, cmds := [] }).code = 1 ∧
    (main { inputs := [], results := [⟨0, [], []⟩, ⟨0, [], []⟩,
              ⟨2, [], "denied".data⟩],
            file := some "version=1.2.3\n".data, cmds := [] }).state.cmds =
      [cmdGitDir, cmdRemoteV, cmdAddUpstream] := by
  refine ⟨by decide, by decide⟩

/-! ### Concrete evaluations checked during development -/

example : bump_version "1.2.3".data "patch".data = Except.ok "1.2.4".data := rfl
example : bump_version "1.2.3".data "minor".data = Except.ok "1.3.0".data := rfl
example : bump_version "1.2.3".data "major".data = Except.ok "2.0.0".data := rfl
example : bump_version "9".data "patch".data = Except.ok "9.0.1".data := rfl
example : bump_version "1.x".data "major".data = Except.ok "2.0.0".data := rfl
example : bump_version "1.x.2".data "minor".data = Except.error () := rfl
example : parseTriple "9".data = some (9, 0, 0) := by decide
example : searchVersion "name=x\nversion=1.2.3\nauthor=y\n".data =
    some ("name=x\n".data, "1.2.3".data, "\nauthor=y\n".data) := by decide
example : subVersionAll "2.0.0".data "name=x\nversion=1.2.3\nauthor=y\n".data =
    "name=x\nversion=2.0.0\nauthor=y\n".data := by decide
example : searchVersion "version= \nversion=7\n".data =
    some ("version= \n".data, "7".data, "\n".data) := by decide

end Update
